import Mathlib

/-!
Verification development for the Ollama content-generator adapter
(`packages/core/src/ollama/ollamaContentGenerator.ts` and
`packages/core/src/config/models.ts`).

The TypeScript source is shallowly embedded: JavaScript runtime values that
the adapter inspects dynamically are modelled by the inductive `Json` type
together with JavaScript truthiness; optional object fields become `Option`;
operations that can throw return `Option`/`Except` (`none`/`.error` marks a
thrown exception).  The host primitive `JSON.parse` is not code of this
repository, so functions that call it take an abstract
`jsonParse : String → Option Json` (or a record-level
`parseLine : List Char → Option _`) parameter; `none` models a parse throw.
-/

namespace Ollama

/-- A JavaScript runtime value as far as the adapter inspects it
(numbers are modelled as integers; none of the adapter's logic depends on
fractional values). -/
inductive Json where
  | null
  | bool (b : Bool)
  | num (n : Int)
  | str (s : String)
  | arr (elems : List Json)
  | obj (fields : List (String × Json))

/-- JavaScript truthiness of a value: `null`, `false`, `0` and the empty
string are falsy; every array and object is truthy. -/
def Json.truthy : Json → Bool
  | .null => false
  | .bool b => b
  | .num n => decide (n ≠ 0)
  | .str s => decide (s ≠ "")
  | .arr _ => true
  | .obj _ => true

/-- Property access `v.k` on a JavaScript value: defined only when `v` is an
object that has the field, `undefined` (here `none`) otherwise. -/
def Json.getField : Json → String → Option Json
  | .obj fields, k => (fields.find? (fun p => p.1 == k)).map (fun p => p.2)
  | _, _ => none

/-- JavaScript `a || b` where `a` may be `undefined` (`none`). -/
def jsOr (a : Option Json) (b : Json) : Json :=
  match a with
  | some j => if j.truthy then j else b
  | none => b

/-- The `functionCall` payload of a Gemini `Part` as this adapter builds it
(`convertChatResponseToGemini` always sets both fields). -/
structure FunctionCall where
  name : String
  args : Json

/-- The `functionResponse` payload of a Gemini `Part`; both fields are
optional in the `@google/genai` `Part` type. -/
structure FunctionResponsePayload where
  name : Option String := none
  response : Option Json := none

/-- A Gemini content `Part` as far as the adapter reads or writes it: the
`@google/genai` `Part` has all-optional fields, of which the adapter touches
`text`, `functionCall` and `functionResponse`. -/
structure Part where
  text : Option String := none
  functionCall : Option FunctionCall := none
  functionResponse : Option FunctionResponsePayload := none

/-- `extractTextFromParts` (source lines 709-719): concatenate `part.text`
for every part that has a `text` field, the empty string for the rest. -/
def extractTextFromParts (parts : List Part) : String :=
  String.join (parts.map (fun part => part.text.getD ""))

/-- `extractFunctionResponses` (source lines 721-734): keep the parts whose
`functionResponse` field is present (a present payload is an object, hence
truthy), and map each to its name (`name || ''`) and to
`response?.output || response || {}`. -/
def extractFunctionResponses (parts : List Part) :
    List (String × Json) :=
  (parts.filter (fun part => part.functionResponse.isSome)).map
    (fun part =>
      let fr := part.functionResponse.getD {}
      (fr.name.getD "",
       jsOr (fr.response.bind (fun r => r.getField "output"))
         (jsOr fr.response (Json.obj []))))

/-- One element of the `request.contents` list after the adapter's dynamic
probing: a bare string, a structured turn (`'role' in content` and
`'parts' in content`; `parts` itself may still be a missing/falsy field,
kept as `Option`), or any other shape (which every converter skips). -/
inductive ContentItem where
  | str (s : String)
  | turn (role : String) (parts : Option (List Part))
  | other

/-- `request.contents` may be a single content or an array
(`Array.isArray(request.contents) ? request.contents : [request.contents]`). -/
inductive ContentsUnion where
  | single (c : ContentItem)
  | list (cs : List ContentItem)

def contentsToList : ContentsUnion → List ContentItem
  | .single c => [c]
  | .list cs => cs

/-- `config.systemInstruction`: a string or a content object with parts. -/
inductive SystemInstruction where
  | str (s : String)
  | content (parts : Option (List Part))

/-- One function declaration inside a tool
(`tool.functionDeclarations[i]`). -/
structure FunctionDeclaration where
  name : Option String := none
  description : Option String := none
  parameters : Option Json := none

/-- One entry of `request.config.tools`. -/
structure Tool where
  functionDeclarations : Option (List FunctionDeclaration) := none

/-- The slice of `request.config` that the embedded operations read. -/
structure GenerateConfig where
  systemInstruction : Option SystemInstruction := none
  tools : Option (List Tool) := none

/-- `GenerateContentParameters`: the abstract generation request. -/
structure GenerateContentParameters where
  model : Option String := none
  contents : ContentsUnion
  config : Option GenerateConfig := none

/-- The result of `convertToOllamaFormat`. -/
structure OllamaFormat where
  prompt : String
  systemInstruction : Option String

/-- The turn-by-turn prompt accumulation of `convertToOllamaFormat`
(source lines 540-559): a bare string is appended verbatim plus newline, a
`user` turn appends its extracted text plus newline, a `model` turn appends
an `Assistant:`/`Human:` transcript fragment, everything else contributes
nothing. -/
def promptOfContents : List ContentItem → String
  | [] => ""
  | .str s :: rest => s ++ "\n" ++ promptOfContents rest
  | .turn role (some parts) :: rest =>
      (if role = "user" then extractTextFromParts parts ++ "\n"
       else if role = "model" then
         "Assistant: " ++ extractTextFromParts parts ++ "\nHuman: "
       else "") ++ promptOfContents rest
  | .turn _ none :: rest => promptOfContents rest
  | .other :: rest => promptOfContents rest

/-- The system-instruction resolution shared by `convertToOllamaFormat`
(source lines 521-534); the guard `if (request.config?.systemInstruction)`
skips a falsy (empty-string) instruction. -/
def resolveSystemInstruction (config : Option GenerateConfig) :
    Option String :=
  match config with
  | none => none
  | some cfg =>
    match cfg.systemInstruction with
    | none => none
    | some (.str s) => if s = "" then none else some s
    | some (.content none) => none
    | some (.content (some parts)) => some (extractTextFromParts parts)

/-- JavaScript `String.prototype.trim`, modelled over the character
sequence: drop leading and trailing whitespace. -/
def jsTrim (s : String) : String :=
  String.mk
    (((s.data.dropWhile Char.isWhitespace).reverse.dropWhile
        Char.isWhitespace).reverse)

/-- `convertToOllamaFormat` (source lines 513-562): build the flat
completion-path prompt (trimmed) and the optional system instruction. -/
def convertToOllamaFormat (request : GenerateContentParameters) :
    OllamaFormat :=
  { prompt := jsTrim (promptOfContents (contentsToList request.contents))
    systemInstruction := resolveSystemInstruction request.config }

/-- `CountTokensParameters`: contents plus a model identifier. -/
structure CountTokensParameters where
  model : Option String := none
  contents : ContentsUnion

structure CountTokensResponse where
  totalTokens : Nat

/-- `countTokens` (source lines 428-444): build the completion-path prompt
from a fake request with an empty config (so tool declarations and system
instructions never participate) and return `Math.ceil(prompt.length / 4)`. -/
def countTokens (request : CountTokensParameters) : CountTokensResponse :=
  let fakeRequest : GenerateContentParameters :=
    { contents := request.contents
      model := request.model
      config := some {} }
  let prompt := (convertToOllamaFormat fakeRequest).prompt
  { totalTokens := (prompt.length + 3) / 4 }

/-- The two Gemini finish reasons this adapter ever emits. -/
inductive FinishReason where
  | STOP
  | MAX_TOKENS
deriving DecidableEq

/-- The `content` object of an emitted candidate. -/
structure Content where
  role : String
  parts : List Part

/-- One candidate of a `GenerateContentResponse`. -/
structure Candidate where
  content : Content
  finishReason : Option FinishReason
  index : Nat

/-- The `usageMetadata` object the adapter attaches. -/
structure UsageMetadata where
  promptTokenCount : Option Nat
  candidatesTokenCount : Option Nat
  totalTokenCount : Nat

/-- The abstract response the adapter returns; a fresh
`new GenerateContentResponse()` has no candidates and no usage metadata. -/
structure GenerateContentResponse where
  candidates : List Candidate := []
  usageMetadata : Option UsageMetadata := none

/-- `OllamaGenerateResponse`: one completion-endpoint backend record. -/
structure OllamaGenerateResponse where
  model : String := ""
  created_at : String := ""
  response : String
  done : Bool
  prompt_eval_count : Option Nat := none
  eval_count : Option Nat := none

/-- The argument field of a backend tool call:
`arguments: string | Record<string, unknown>`. -/
inductive ToolCallArguments where
  | str (s : String)
  | obj (j : Json)

/-- `OllamaToolCall.function`. -/
structure ToolCallFunction where
  name : String
  arguments : ToolCallArguments

/-- One backend tool call (`OllamaToolCall`); `id`/`type` are never read. -/
structure OllamaToolCall where
  function : ToolCallFunction

/-- `OllamaMessage` as read from a chat-endpoint backend record. -/
structure OllamaMessage where
  role : String := "assistant"
  content : String
  tool_calls : Option (List OllamaToolCall) := none

/-- `OllamaChatResponse`: one chat-endpoint backend record. -/
structure OllamaChatResponse where
  model : String := ""
  created_at : String := ""
  message : OllamaMessage
  done : Bool
  prompt_eval_count : Option Nat := none
  eval_count : Option Nat := none

/-- The usage-metadata aggregation shared by every translator
(`prompt_eval_count`/`eval_count` forwarded as-is, absent counts default to
0 in the total). -/
def usageOf (prompt_eval_count eval_count : Option Nat) : UsageMetadata :=
  { promptTokenCount := prompt_eval_count
    candidatesTokenCount := eval_count
    totalTokenCount := prompt_eval_count.getD 0 + eval_count.getD 0 }

/-- The non-streaming completion-path response translation
(`generateContentWithGenerate`, source lines 192-215): one candidate with a
single text part, finish reason `STOP` when `done` else `MAX_TOKENS`, usage
metadata always attached. -/
def convertGenerateResponseToGemini (ollamaResponse : OllamaGenerateResponse) :
    GenerateContentResponse :=
  { candidates :=
      [{ content := { role := "model", parts := [{ text := some ollamaResponse.response }] }
         finishReason := some (if ollamaResponse.done then .STOP else .MAX_TOKENS)
         index := 0 }]
    usageMetadata :=
      some (usageOf ollamaResponse.prompt_eval_count ollamaResponse.eval_count) }

/-- The per-record translation inside the completion-path streaming loop
(`doGenerateContentStream`, source lines 317-337): one candidate with a
single text part, finish reason `STOP` when `done` else left unset, usage
metadata attached only when `done`. -/
def convertGenerateChunk (chunk : OllamaGenerateResponse) :
    GenerateContentResponse :=
  { candidates :=
      [{ content := { role := "model", parts := [{ text := some chunk.response }] }
         finishReason := if chunk.done then some .STOP else none
         index := 0 }]
    usageMetadata :=
      if chunk.done then some (usageOf chunk.prompt_eval_count chunk.eval_count)
      else none }

/-- The tool-call loop of `convertChatResponseToGemini` (source lines
673-684): each tool call becomes a `functionCall` part; string arguments go
through the host `JSON.parse`, whose throw (modelled as `none`) aborts the
whole conversion. -/
def convertToolCalls (jsonParse : String → Option Json) :
    List OllamaToolCall → Option (List Part)
  | [] => some []
  | toolCall :: rest => do
      let args ←
        match toolCall.function.arguments with
        | .str s => jsonParse s
        | .obj j => some j
      let restParts ← convertToolCalls jsonParse rest
      pure ({ functionCall := some { name := toolCall.function.name, args := args } } :: restParts)

/-- `convertChatResponseToGemini` (source lines 661-707): a text part when
the message content is non-empty, then one `functionCall` part per tool
call; finish reason `STOP` when `done` else unset; usage metadata only when
`done`.  `none` models the `JSON.parse` throw on string tool-call arguments
that are not valid JSON. -/
def convertChatResponseToGemini (jsonParse : String → Option Json)
    (response : OllamaChatResponse) : Option GenerateContentResponse :=
  let textParts : List Part :=
    if response.message.content = "" then []
    else [{ text := some response.message.content }]
  match convertToolCalls jsonParse (response.message.tool_calls.getD []) with
  | none => none
  | some toolParts =>
      some
        { candidates :=
            [{ content := { role := "model", parts := textParts ++ toolParts }
               finishReason := if response.done then some .STOP else none
               index := 0 }]
          usageMetadata :=
            if response.done then
              some (usageOf response.prompt_eval_count response.eval_count)
            else none }

/-- The chat path of the non-streaming `generateContent` operation after the
backend record arrived (`generateContentWithChat` result conversion plus the
`catch`/re-throw wrapper of `generateContent`, source lines 139-160 and
248-251): a conversion throw propagates to the caller as a hard error. -/
def generateContentChatResult (jsonParse : String → Option Json)
    (ollamaResponse : OllamaChatResponse) :
    Except String GenerateContentResponse :=
  match convertChatResponseToGemini jsonParse ollamaResponse with
  | some response => .ok response
  | none => .error "Failed to generate content with Ollama"

/-- The two backend endpoints a generation request can be routed to. -/
inductive Endpoint where
  | generate
  | chat
deriving DecidableEq

/-- `request.config?.tools && request.config.tools.length > 0` (source lines
141 and 258): an absent config or absent tools field is falsy, an empty
tools array fails the length test. -/
def hasTools (request : GenerateContentParameters) : Bool :=
  match request.config with
  | none => false
  | some config =>
    match config.tools with
    | none => false
    | some tools => decide (tools.length > 0)

/-- Endpoint selection of `generateContent` (source lines 136-148). -/
def generateContentEndpoint (request : GenerateContentParameters) : Endpoint :=
  if hasTools request then .chat else .generate

/-- Endpoint selection of `generateContentStream` (source lines 254-265). -/
def generateContentStreamEndpoint (request : GenerateContentParameters) :
    Endpoint :=
  if hasTools request then .chat else .generate

/-- `DEFAULT_OLLAMA_MODEL` from `packages/core/src/config/models.ts`. -/
def DEFAULT_OLLAMA_MODEL : String := "qwen3:1.7b"

/-- `RECOMMENDED_OLLAMA_MODELS` from `packages/core/src/config/models.ts`. -/
def RECOMMENDED_OLLAMA_MODELS : List String :=
  ["qwen3:1.7b", "gemma2:2b", "llama3.2:3b", "phi3:3.8b", "codellama:7b",
   "mistral:7b"]

/-- `getAvailableModels` (source lines 750-760) after the inventory query
returned `installedModels`: the installed list when non-empty, else the
recommended list. -/
def getAvailableModels (installedModels : List String) : List String :=
  if installedModels.length > 0 then installedModels
  else RECOMMENDED_OLLAMA_MODELS

/-- `getBestAvailableModel` (source lines 762-779) after the available set
resolved: the default model when available; else the first recommended model
that is available, in recommended order; else `availableModels[0] ||
DEFAULT_OLLAMA_MODEL` (a JavaScript `||`, so an absent or empty-string first
entry falls back to the default). -/
def getBestAvailableModel (availableModels : List String) : String :=
  if availableModels.contains DEFAULT_OLLAMA_MODEL then DEFAULT_OLLAMA_MODEL
  else
    match RECOMMENDED_OLLAMA_MODELS.find? (fun m => availableModels.contains m) with
    | some m => m
    | none =>
      match availableModels with
      | [] => DEFAULT_OLLAMA_MODEL
      | first :: _ => if first = "" then DEFAULT_OLLAMA_MODEL else first

/-- `buffer.split('\n')` on a character sequence: the newline-separated
segments, always at least one segment, none of which contains a newline. -/
def splitNl : List Char → List (List Char)
  | [] => [[]]
  | c :: rest =>
    let segs := splitNl rest
    if c = '\n' then [] :: segs
    else
      match segs with
      | [] => [[c]]
      | seg :: more => (c :: seg) :: more

/-- One iteration of the streaming read loop (source lines 310-312): append
the chunk to the buffer, split on newlines; all segments but the last are
complete lines, the last segment (`lines.pop() || ''`) is the new buffer. -/
def feedChunk (buffer chunk : List Char) : List (List Char) × List Char :=
  let lines := splitNl (buffer ++ chunk)
  (lines.dropLast, lines.getLastD [])

/-- The whole read loop of the streaming line decoder (source lines
304-313) over a finite chunk sequence: fold `feedChunk` from an empty
buffer, collecting the complete lines in order; the final buffer is
discarded at end-of-stream. -/
def runDecoder (chunks : List (List Char)) : List (List Char) × List Char :=
  chunks.foldl
    (fun acc chunk =>
      let fed := feedChunk acc.2 chunk
      (acc.1 ++ fed.1, fed.2))
    ([], [])

/-- The complete lines the streaming line decoder yields for a chunk
sequence. -/
def decodedLines (chunks : List (List Char)) : List (List Char) :=
  (runDecoder chunks).1

/-- `!line.trim()`: the line is empty or all whitespace. -/
def isBlankLine (line : List Char) : Bool :=
  line.all Char.isWhitespace

/-- The per-line body of the completion-path streaming loop
(`doGenerateContentStream`, source lines 314-342): blank lines are ignored;
each remaining line is JSON-decoded (`parseLine`, modelling
`JSON.parse` into an `OllamaGenerateResponse`; `none` models a throw, which
is caught, logged and skipped) and translated per record. -/
def doGenerateContentStreamLines
    (parseLine : List Char → Option OllamaGenerateResponse)
    (lines : List (List Char)) : List GenerateContentResponse :=
  lines.filterMap
    (fun line =>
      if isBlankLine line then none
      else (parseLine line).map convertGenerateChunk)

/-- The per-line body of the chat-path streaming loop
(`doGenerateContentStreamChat`, source lines 404-413): blank lines are
ignored; the `try` block covers both the line decode and
`convertChatResponseToGemini`, so a throw from either (a malformed line or
malformed string tool-call arguments) is caught, logged and skipped. -/
def doGenerateContentStreamChatLines
    (parseLine : List Char → Option OllamaChatResponse)
    (jsonParse : String → Option Json)
    (lines : List (List Char)) : List GenerateContentResponse :=
  lines.filterMap
    (fun line =>
      if isBlankLine line then none
      else
        match parseLine line with
        | none => none
        | some chunk => convertChatResponseToGemini jsonParse chunk)

/-- The full completion-path streaming pipeline on a chunk sequence: line
decoding followed by the per-line loop. -/
def streamRecords (parseLine : List Char → Option OllamaGenerateResponse)
    (chunks : List (List Char)) : List GenerateContentResponse :=
  doGenerateContentStreamLines parseLine (decodedLines chunks)

/-- Prepend a pending partial line to the first segment of a later split. -/
def consHead (pending : List Char) : List (List Char) → List (List Char)
  | [] => [pending]
  | seg :: more => (pending ++ seg) :: more

theorem splitNl_ne_nil (l : List Char) : splitNl l ≠ [] := by
  cases l with
  | nil => simp [splitNl]
  | cons c rest =>
    simp only [splitNl]
    by_cases h : c = '\n'
    · simp [h]
    · simp only [h, if_false]
      cases splitNl rest <;> simp

theorem splitNl_eq_singleton {l : List Char} (h : '\n' ∉ l) :
    splitNl l = [l] := by
  induction l with
  | nil => rfl
  | cons c rest ih =>
    have hc : ¬c = '\n' := fun e => h (e ▸ List.mem_cons_self c rest)
    have hr : '\n' ∉ rest := fun m => h (List.mem_cons_of_mem _ m)
    simp [splitNl, hc, ih hr]

theorem not_nl_of_mem_splitNl :
    ∀ {l s : List Char}, s ∈ splitNl l → '\n' ∉ s := by
  intro l
  induction l with
  | nil =>
    intro s hs
    simp [splitNl] at hs
    simp [hs]
  | cons c rest ih =>
    intro s hs
    simp only [splitNl] at hs
    by_cases hc : c = '\n'
    · simp [hc] at hs
      rcases hs with rfl | hs
      · simp
      · exact ih hs
    · simp only [hc, if_false] at hs
      cases hsegs : splitNl rest with
      | nil => exact absurd hsegs (splitNl_ne_nil rest)
      | cons seg more =>
        rw [hsegs] at hs
        rcases List.mem_cons.mp hs with rfl | hs
        · intro hmem
          rcases List.mem_cons.mp hmem with he | hm
          · exact hc he.symm
          · exact ih (hsegs ▸ List.mem_cons_self seg more) hm
        · exact ih (hsegs ▸ List.mem_cons_of_mem seg hs)

theorem consHead_ne_nil (pending : List Char) (segs : List (List Char)) :
    consHead pending segs ≠ [] := by
  cases segs <;> simp [consHead]

theorem getLastD_mem {l : List (List Char)} (h : l ≠ []) :
    l.getLastD [] ∈ l := by
  induction l with
  | nil => exact absurd rfl h
  | cons x rest ih =>
    cases hrest : rest with
    | nil => simp [List.getLastD_cons]
    | cons y more =>
      have hmem := ih (by simp [hrest])
      rw [hrest] at hmem
      rw [List.getLastD_cons] at hmem
      rw [List.getLastD_cons, List.getLastD_cons]
      exact List.mem_cons_of_mem _ hmem

/-- Splitting a concatenation: the complete segments of `a` survive, and the
pending tail of `a` merges into the first segment of `b`'s split. -/
theorem splitNl_append (a b : List Char) :
    splitNl (a ++ b) =
      (splitNl a).dropLast ++
        consHead ((splitNl a).getLastD []) (splitNl b) := by
  induction a with
  | nil =>
    cases hb : splitNl b with
    | nil => exact absurd hb (splitNl_ne_nil b)
    | cons seg more => simp [splitNl, consHead, hb]
  | cons c a' ih =>
    by_cases hc : c = '\n'
    · subst hc
      show splitNl ('\n' :: (a' ++ b)) = _
      cases ha : splitNl a' with
      | nil => exact absurd ha (splitNl_ne_nil a')
      | cons s ss =>
        simp only [splitNl, if_pos rfl, ih, ha]
        cases ss with
        | nil => simp [List.getLastD_cons]
        | cons s' ss' => simp [List.getLastD_cons]
    · show splitNl (c :: (a' ++ b)) = _
      cases ha : splitNl a' with
      | nil => exact absurd ha (splitNl_ne_nil a')
      | cons s ss =>
        cases ss with
        | nil =>
          cases hb : splitNl b with
          | nil => exact absurd hb (splitNl_ne_nil b)
          | cons t ts =>
            simp only [splitNl, if_neg hc, ih, ha, hb,
              List.dropLast_single, List.getLastD_cons, List.getLastD_nil,
              List.nil_append, consHead]
            simp
        | cons s' ss' =>
          simp only [splitNl, if_neg hc, ih, ha]
          cases hch : consHead ((s' :: ss').getLastD s) (splitNl b) with
          | nil => exact absurd hch (consHead_ne_nil _ _)
          | cons u us =>
            simp [List.getLastD_cons, hch]

/-- The streaming read loop, started on any newline-free buffer, yields
exactly the complete segments of the buffer followed by everything read,
keeping the unterminated tail as the final buffer. -/
theorem runDecoder_loop (chunks : List (List Char)) :
    ∀ (out : List (List Char)) (buf : List Char), '\n' ∉ buf →
      chunks.foldl
        (fun acc chunk =>
          let fed := feedChunk acc.2 chunk
          (acc.1 ++ fed.1, fed.2))
        (out, buf) =
      (out ++ (splitNl (buf ++ chunks.flatten)).dropLast,
       (splitNl (buf ++ chunks.flatten)).getLastD []) := by
  induction chunks with
  | nil =>
    intro out buf h
    simp [splitNl_eq_singleton h]
  | cons chunk rest ih =>
    intro out buf h
    rw [List.foldl_cons]
    have hbuf' : '\n' ∉ (splitNl (buf ++ chunk)).getLastD [] :=
      not_nl_of_mem_splitNl (getLastD_mem (splitNl_ne_nil _))
    show List.foldl _ (out ++ (feedChunk buf chunk).1, (feedChunk buf chunk).2) rest = _
    rw [show (feedChunk buf chunk).1 = (splitNl (buf ++ chunk)).dropLast from rfl,
        show (feedChunk buf chunk).2 = (splitNl (buf ++ chunk)).getLastD [] from rfl,
        ih _ _ hbuf']
    have hsplit :
        splitNl (buf ++ (chunk :: rest).flatten) =
          (splitNl (buf ++ chunk)).dropLast ++
            consHead ((splitNl (buf ++ chunk)).getLastD []) (splitNl rest.flatten) := by
      rw [List.flatten_cons, ← List.append_assoc]
      exact splitNl_append (buf ++ chunk) rest.flatten
    have htail :
        splitNl ((splitNl (buf ++ chunk)).getLastD [] ++ rest.flatten) =
          consHead ((splitNl (buf ++ chunk)).getLastD []) (splitNl rest.flatten) := by
      rw [splitNl_append, splitNl_eq_singleton hbuf']
      simp [List.getLastD_cons]
    rw [htail, hsplit]
    cases hch : consHead ((splitNl (buf ++ chunk)).getLastD []) (splitNl rest.flatten) with
    | nil => exact absurd hch (consHead_ne_nil _ _)
    | cons u us =>
      rw [List.dropLast_append_cons]
      simp only [Prod.mk.injEq]
      constructor
      · simp [List.append_assoc]
      · rw [List.getLastD_eq_getLast?, List.getLastD_eq_getLast?, List.getLast?_append]
        cases hlast : (u :: us).getLast? with
        | none => simp at hlast
        | some v => simp [hlast, Option.or]

/-- The lines the decoder yields depend only on the concatenation of the
chunk stream: they are all newline-separated segments except the trailing
(possibly empty) unterminated one. -/
theorem decodedLines_eq_join (chunks : List (List Char)) :
    decodedLines chunks = (splitNl chunks.flatten).dropLast := by
  show (chunks.foldl _ ([], [])).1 = _
  rw [runDecoder_loop chunks [] [] (by simp)]
  simp

/-- Splitting text that starts with a complete newline-terminated line. -/
theorem splitNl_line (line rest : List Char) (h : '\n' ∉ line) :
    splitNl (line ++ '\n' :: rest) = line :: splitNl rest := by
  induction line with
  | nil => simp [splitNl]
  | cons c l ih =>
    have hc : ¬c = '\n' := fun e => h (e ▸ List.mem_cons_self c l)
    have hl : '\n' ∉ l := fun m => h (List.mem_cons_of_mem _ m)
    simp only [List.cons_append, splitNl, if_neg hc, List.append_eq]
    rw [ih hl]

/-- A well-formed NDJSON stream: every line followed by a newline. -/
def ndjsonEncode (lines : List (List Char)) : List Char :=
  (lines.map (fun line => line ++ ['\n'])).flatten

/-- On a stream of complete newline-terminated lines the decoder yields
exactly those lines. -/
theorem splitNl_ndjson (lines : List (List Char))
    (h : ∀ l ∈ lines, '\n' ∉ l) :
    (splitNl (ndjsonEncode lines)).dropLast = lines := by
  induction lines with
  | nil => simp [ndjsonEncode, splitNl]
  | cons line more ih =>
    have hline : '\n' ∉ line := h line (List.mem_cons_self line more)
    have hmore : ∀ l ∈ more, '\n' ∉ l :=
      fun l hl => h l (List.mem_cons_of_mem _ hl)
    have henc : ndjsonEncode (line :: more) = line ++ '\n' :: ndjsonEncode more := by
      simp [ndjsonEncode]
    rw [henc, splitNl_line line (ndjsonEncode more) hline]
    cases hs : splitNl (ndjsonEncode more) with
    | nil => exact absurd hs (splitNl_ne_nil _)
    | cons seg segs =>
      rw [List.dropLast_cons₂]
      rw [hs] at ih
      rw [ih hmore]

/-- The value selection exactly as claim C8 words it: the nested `output`
field whenever the payload is a map containing one, else the whole payload,
else the empty map. -/
def claimedFunctionResponseValue : Option Json → Json
  | some payload =>
    match payload.getField "output" with
    | some out => out
    | none => payload
  | none => Json.obj []

/-- `extractFunctionResponses` as claim C8 words it. -/
def claimedExtractFunctionResponses (parts : List Part) :
    List (String × Json) :=
  (parts.filter (fun part => part.functionResponse.isSome)).map
    (fun part =>
      let fr := part.functionResponse.getD {}
      (fr.name.getD "", claimedFunctionResponseValue fr.response))

/-- The value selection under the amended claim: JavaScript truthiness
gates both preferences, so a falsy `output` field and a falsy payload each
fall through. -/
def amendedFunctionResponseValue (response : Option Json) : Json :=
  match response.bind (fun r => r.getField "output") with
  | some out =>
    if out.truthy then out
    else
      match response with
      | some payload => if payload.truthy then payload else Json.obj []
      | none => Json.obj []
  | none =>
    match response with
    | some payload => if payload.truthy then payload else Json.obj []
    | none => Json.obj []

/-- `extractFunctionResponses` as the amended claim words it. -/
def amendedExtractFunctionResponses (parts : List Part) :
    List (String × Json) :=
  (parts.filter (fun part => part.functionResponse.isSome)).map
    (fun part =>
      let fr := part.functionResponse.getD {}
      (fr.name.getD "", amendedFunctionResponseValue fr.response))

theorem amendedFunctionResponseValue_eq (r : Option Json) :
    amendedFunctionResponseValue r =
      jsOr (r.bind (fun j => j.getField "output")) (jsOr r (Json.obj [])) := by
  cases hb : r.bind (fun j => j.getField "output") with
  | none => cases r <;> simp [amendedFunctionResponseValue, jsOr, hb]
  | some out => cases r <;> simp [amendedFunctionResponseValue, jsOr, hb]

/-- `Math.ceil(n / 4)` for a natural `n` is `(n + 3) / 4`. -/
theorem ceil_div_four (n : ℕ) : ⌈(n : ℚ) / 4⌉₊ = (n + 3) / 4 := by
  rcases Nat.eq_zero_or_pos n with rfl | hn
  · norm_num
  · have hq : (n + 3) / 4 ≠ 0 := by omega
    have h4 : (0 : ℚ) < 4 := by norm_num
    rw [Nat.ceil_eq_iff hq]
    constructor
    · rw [lt_div_iff₀ h4]
      exact_mod_cast (by omega : ((n + 3) / 4 - 1) * 4 < n)
    · rw [div_le_iff₀ h4]
      exact_mod_cast (by omega : n ≤ (n + 3) / 4 * 4)

/-- The tool declarations a request carries
(`request.config?.tools`, absent treated as none). -/
def requestTools (request : GenerateContentParameters) : List Tool :=
  (request.config.bind GenerateConfig.tools).getD []

theorem hasTools_iff (request : GenerateContentParameters) :
    hasTools request = true ↔ requestTools request ≠ [] := by
  unfold hasTools requestTools
  cases hc : request.config with
  | none => simp [hc]
  | some config =>
    cases ht : config.tools with
    | none => simp [hc, ht]
    | some tools => cases tools <;> simp [hc, ht]

/-- Claim C1: a generation request carrying one or more tool declarations
is routed to the chat endpoint and a request carrying none to the
completion endpoint, by both the non-streaming and the streaming generate
operation; the other endpoint is never invoked in either case. -/
theorem claim1_endpoint_routing (request : GenerateContentParameters) :
    (requestTools request = [] →
      generateContentEndpoint request = .generate ∧
      generateContentStreamEndpoint request = .generate) ∧
    (requestTools request ≠ [] →
      generateContentEndpoint request = .chat ∧
      generateContentStreamEndpoint request = .chat) := by
  constructor
  · intro h
    have hht : hasTools request = false := by
      cases hb : hasTools request with
      | false => rfl
      | true => exact absurd h ((hasTools_iff request).mp hb)
    constructor <;>
      simp [generateContentEndpoint, generateContentStreamEndpoint, hht]
  · intro h
    have hht : hasTools request = true := by
      cases hb : hasTools request with
      | true => rfl
      | false => exact absurd ((hasTools_iff request).mpr h) (by simp [hb])
    constructor <;>
      simp [generateContentEndpoint, generateContentStreamEndpoint, hht]

/-- Witness for claim C1 at two concrete requests: no tools routes both
operations to the completion endpoint, one tool routes both to the chat
endpoint. -/
theorem claim1_endpoint_routing_witness :
    (generateContentEndpoint { contents := .list [] } = .generate ∧
     generateContentStreamEndpoint { contents := .list [] } = .generate) ∧
    (generateContentEndpoint
        { contents := .list [], config := some { tools := some [{}] } } = .chat ∧
     generateContentStreamEndpoint
        { contents := .list [], config := some { tools := some [{}] } } = .chat) := by
  constructor
  · exact (claim1_endpoint_routing { contents := .list [] }).1 rfl
  · exact (claim1_endpoint_routing
      { contents := .list [], config := some { tools := some [{}] } }).2
      (by simp [requestTools])

/-- Claim C6: the non-streaming completion-path translation yields exactly
one candidate with a single text part equal to the response text, finish
reason STOP if done else MAX_TOKENS, and always-populated usage metadata
totalling the two eval counts with absent counts defaulting to 0; in
particular the documented example evaluates as stated. -/
theorem claim6_nonstreaming_completion_translation :
    (∀ resp : OllamaGenerateResponse,
        (convertGenerateResponseToGemini resp).candidates =
          [{ content := { role := "model", parts := [{ text := some resp.response }] }
             finishReason :=
               some (if resp.done then FinishReason.STOP else FinishReason.MAX_TOKENS)
             index := 0 }] ∧
        (convertGenerateResponseToGemini resp).usageMetadata =
          some { promptTokenCount := resp.prompt_eval_count
                 candidatesTokenCount := resp.eval_count
                 totalTokenCount :=
                   resp.prompt_eval_count.getD 0 + resp.eval_count.getD 0 }) ∧
    convertGenerateResponseToGemini
        { response := "Hello, world!", done := true,
          prompt_eval_count := some 10, eval_count := some 5 } =
      { candidates :=
          [{ content := { role := "model", parts := [{ text := some "Hello, world!" }] }
             finishReason := some FinishReason.STOP
             index := 0 }]
        usageMetadata :=
          some { promptTokenCount := some 10, candidatesTokenCount := some 5,
                 totalTokenCount := 15 } } :=
  ⟨fun _ => ⟨rfl, rfl⟩, rfl⟩

/-- Claim C9: the token estimate builds the completion-path prompt (from a
fake request with an empty config, so tool declarations never participate)
and returns the ceiling of a quarter of its character length; the 11-char
prompt of the documented example yields 3. -/
theorem claim9_token_estimate :
    (∀ request : CountTokensParameters,
        (countTokens request).totalTokens =
          ⌈((convertToOllamaFormat
              { contents := request.contents, model := request.model,
                config := some {} }).prompt.length : ℚ) / 4⌉₊) ∧
    (countTokens
        { contents := .list [.turn "user" (some [{ text := some "Hello world" }])] }).totalTokens
      = 3 := by
  constructor
  · intro request
    rw [ceil_div_four]
    rfl
  · rfl

/-- A content element survives the completion-path prompt builder's role
dispatch: bare strings and everything that is not a structured turn with a
role other than `user`/`model`. -/
def keepsUserModel : ContentItem → Bool
  | .turn role _ => role == "user" || role == "model"
  | _ => true

theorem promptOfContents_filter (contents : List ContentItem) :
    promptOfContents (contents.filter keepsUserModel) =
      promptOfContents contents := by
  induction contents with
  | nil => rfl
  | cons c rest ih =>
    cases c with
    | str s => simp [keepsUserModel, promptOfContents, List.filter_cons, ih]
    | other => simp [keepsUserModel, promptOfContents, List.filter_cons, ih]
    | turn role parts =>
      simp only [List.filter_cons]
      by_cases hu : role = "user"
      · subst hu
        cases parts <;> simp [keepsUserModel, promptOfContents, ih]
      · by_cases hm : role = "model"
        · subst hm
          cases parts <;> simp [keepsUserModel, promptOfContents, ih]
        · have hkeep : keepsUserModel (.turn role parts) = false := by
            simp [keepsUserModel, hu, hm]
          rw [hkeep]
          cases parts with
          | none => simp [promptOfContents, ih]
          | some ps => simp [promptOfContents, hu, hm, ih]

/-- Claim C10: the completion-path prompt builder silently drops every
structured turn whose role is neither `user` nor `model`, so the built
prompt — and the token estimate that reuses it — equals the one built from
the same request with all such turns removed. -/
theorem claim10_non_user_model_turns_dropped :
    (∀ request : GenerateContentParameters,
        convertToOllamaFormat
          { request with
              contents :=
                .list ((contentsToList request.contents).filter keepsUserModel) } =
          convertToOllamaFormat request) ∧
    (∀ request : CountTokensParameters,
        countTokens
          { request with
              contents :=
                .list ((contentsToList request.contents).filter keepsUserModel) } =
          countTokens request) := by
  constructor
  · intro request
    simp only [convertToOllamaFormat, contentsToList, promptOfContents_filter]
  · intro request
    simp only [countTokens, convertToOllamaFormat, contentsToList,
      promptOfContents_filter]

/-- Claim C3: the streaming line decoder is invariant under chunk
fragmentation — any two chunkings of the same character stream yield the
same complete lines, hence the same decoded records in the same order —
and on a stream of complete newline-terminated lines it yields exactly
those lines. -/
theorem claim3_fragmentation_invariance :
    (∀ (parseLine : List Char → Option OllamaGenerateResponse)
       (chunks chunks' : List (List Char)),
        chunks.flatten = chunks'.flatten →
        decodedLines chunks = decodedLines chunks' ∧
        streamRecords parseLine chunks = streamRecords parseLine chunks') ∧
    (∀ lines : List (List Char), (∀ l ∈ lines, '\n' ∉ l) →
        ∀ chunks : List (List Char), chunks.flatten = ndjsonEncode lines →
          decodedLines chunks = lines) := by
  constructor
  · intro parseLine chunks chunks' h
    have heq : decodedLines chunks = decodedLines chunks' := by
      rw [decodedLines_eq_join, decodedLines_eq_join, h]
    exact ⟨heq, by unfold streamRecords; rw [heq]⟩
  · intro lines hl chunks hflat
    rw [decodedLines_eq_join, hflat]
    exact splitNl_ndjson lines hl

/-- Witness for claim C3: the two-line stream of the specification example,
fed whole or split in the middle of the second line, decodes to the same
two lines. -/
theorem claim3_fragmentation_invariance_witness :
    decodedLines [['a', '\n', 'b', 'b', '\n']] =
      decodedLines [['a', '\n', 'b'], ['b', '\n']] ∧
    decodedLines [['a', '\n', 'b'], ['b', '\n']] = [['a'], ['b', 'b']] := by
  constructor
  · exact (claim3_fragmentation_invariance.1 (fun _ => none)
      [['a', '\n', 'b', 'b', '\n']] [['a', '\n', 'b'], ['b', '\n']] rfl).1
  · exact claim3_fragmentation_invariance.2 [['a'], ['b', 'b']]
      (by decide) [['a', '\n', 'b'], ['b', '\n']] rfl

/-- Claim C4: in the completion-path streaming loop a complete non-blank
line whose JSON decode throws is skipped, and every well-formed line before
and after it is still decoded and yielded in order; a well-formed non-blank
line always yields its record's translation. -/
theorem claim4_malformed_line_skipped :
    (∀ (parseLine : List Char → Option OllamaGenerateResponse)
       (before after : List (List Char)) (bad : List Char),
        isBlankLine bad = false → parseLine bad = none →
        doGenerateContentStreamLines parseLine (before ++ bad :: after) =
          doGenerateContentStreamLines parseLine before ++
            doGenerateContentStreamLines parseLine after) ∧
    (∀ (parseLine : List Char → Option OllamaGenerateResponse)
       (line : List Char) (chunk : OllamaGenerateResponse),
        isBlankLine line = false → parseLine line = some chunk →
        doGenerateContentStreamLines parseLine [line] =
          [convertGenerateChunk chunk]) := by
  constructor
  · intro parseLine before after bad hblank hparse
    unfold doGenerateContentStreamLines
    rw [List.filterMap_append]
    rw [List.filterMap_cons]
    simp [hblank, hparse]
  · intro parseLine line chunk hblank hparse
    simp [doGenerateContentStreamLines, hblank, hparse]

/-- Witness for claim C4 at a concrete parse function: the undecodable
middle line is dropped while the surrounding well-formed lines still yield
their records. -/
theorem claim4_malformed_line_skipped_witness :
    doGenerateContentStreamLines
        (fun l => if l = ['a'] then some { response := "A", done := false } else none)
        ([[' ', 'a'], ['a']] ++ ['x'] :: [['a']]) =
      doGenerateContentStreamLines
        (fun l => if l = ['a'] then some { response := "A", done := false } else none)
        [[' ', 'a'], ['a']] ++
        doGenerateContentStreamLines
          (fun l => if l = ['a'] then some { response := "A", done := false } else none)
          [['a']] :=
  claim4_malformed_line_skipped.1 _ [[' ', 'a'], ['a']] [['a']] ['x'] rfl rfl

/-- Claim C5: every response emitted on the streaming completion path is the
translation of a decoded record, and that translation has one candidate
with a single text part equal to the record's fragment, finish reason STOP
exactly when the record is done (and never MAX_TOKENS, unset when not
done), with usage metadata attached exactly on the done record, totalling
the two eval counts with absent counts defaulting to 0. -/
theorem claim5_streaming_completion_translation :
    (∀ (parseLine : List Char → Option OllamaGenerateResponse)
       (lines : List (List Char)) (r : GenerateContentResponse),
        r ∈ doGenerateContentStreamLines parseLine lines →
        ∃ chunk, r = convertGenerateChunk chunk) ∧
    (∀ chunk : OllamaGenerateResponse,
        ∃ cand,
          (convertGenerateChunk chunk).candidates = [cand] ∧
          cand.content.parts = [{ text := some chunk.response }] ∧
          cand.finishReason ≠ some FinishReason.MAX_TOKENS ∧
          (cand.finishReason = some FinishReason.STOP ↔ chunk.done = true) ∧
          (cand.finishReason = none ↔ chunk.done = false) ∧
          (chunk.done = true →
            (convertGenerateChunk chunk).usageMetadata =
              some { promptTokenCount := chunk.prompt_eval_count
                     candidatesTokenCount := chunk.eval_count
                     totalTokenCount :=
                       chunk.prompt_eval_count.getD 0 + chunk.eval_count.getD 0 }) ∧
          (chunk.done = false →
            (convertGenerateChunk chunk).usageMetadata = none)) := by
  constructor
  · intro parseLine lines r hr
    rcases List.mem_filterMap.mp hr with ⟨line, _, hline⟩
    by_cases hb : isBlankLine line
    · simp [hb] at hline
    · simp only [hb, Bool.false_eq_true, if_neg, ite_false] at hline
      rcases Option.map_eq_some'.mp hline with ⟨chunk, _, rfl⟩
      exact ⟨chunk, rfl⟩
  · intro chunk
    refine ⟨_, rfl, rfl, ?_, ?_, ?_, ?_, ?_⟩ <;>
      cases hd : chunk.done <;>
        simp [convertGenerateChunk, usageOf, hd]

/-- Witness for claim C5: the response emitted for a concrete decoded
record is the translation of some record. -/
theorem claim5_streaming_completion_translation_witness :
    ∃ chunk,
      convertGenerateChunk
          { response := "Hi", done := true, prompt_eval_count := some 10,
            eval_count := some 5 } =
        convertGenerateChunk chunk := by
  refine claim5_streaming_completion_translation.1
    (fun _ =>
      some
        { response := "Hi", done := true, prompt_eval_count := some 10,
          eval_count := some 5 })
    [['a']] _ ?_
  exact List.mem_filterMap.mpr ⟨['a'], List.mem_cons_self _ _, rfl⟩

theorem convertToolCalls_eq_none (jsonParse : String → Option Json)
    (calls : List OllamaToolCall) (tc : OllamaToolCall) (s : String)
    (hmem : tc ∈ calls) (hs : tc.function.arguments = .str s)
    (hparse : jsonParse s = none) :
    convertToolCalls jsonParse calls = none := by
  induction calls with
  | nil => cases hmem
  | cons c rest ih =>
    rcases List.mem_cons.mp hmem with rfl | hmem'
    · simp [convertToolCalls, hs, hparse]
    · cases harg : c.function.arguments with
      | str t =>
        cases hp : jsonParse t with
        | none => simp [convertToolCalls, harg, hp]
        | some j => simp [convertToolCalls, harg, hp, ih hmem']
      | obj j => simp [convertToolCalls, harg, ih hmem']

/-- A backend tool call whose string arguments are not valid JSON (under
any JSON parse they decode to nothing). -/
def badToolCall : OllamaToolCall :=
  { function := { name := "run", arguments := .str "notjson" } }

/-- A chat record carrying only the malformed tool call. -/
def badChatChunk : OllamaChatResponse :=
  { message := { content := "", tool_calls := some [badToolCall] }
    done := false }

/-- A well-formed chat record with plain text and no tool calls. -/
def goodChatChunk : OllamaChatResponse :=
  { message := { content := "ok", tool_calls := none }
    done := true }

/-- A concrete line decode: the line `b` carries the malformed-tool-call
record, the line `g` the well-formed record. -/
def chatParseLineStub : List Char → Option OllamaChatResponse :=
  fun line =>
    if line = ['b'] then some badChatChunk
    else if line = ['g'] then some goodChatChunk
    else none

/-- Claim C2 counterexample: a chat record whose tool-call arguments arrive
as an unparseable string makes the translation throw, yet the streaming
chat operation does not fail — its chunk-level catch swallows the throw, so
the record is silently skipped and the stream continues exactly as if the
record had not been there. -/
theorem claim2_counterexample :
    convertChatResponseToGemini (fun _ => none) badChatChunk = none ∧
    doGenerateContentStreamChatLines chatParseLineStub (fun _ => none)
        [['b'], ['g']] =
      doGenerateContentStreamChatLines chatParseLineStub (fun _ => none)
        [['g']] :=
  ⟨rfl, rfl⟩

/-- Claim C2 (amended): on the non-streaming chat path a tool call whose
string arguments fail to parse as JSON makes the operation fail with a
hard propagated error; on the streaming chat path the chunk-level catch
also covers the translation, so such a record is logged and skipped while
every record before and after it is still yielded in order. -/
theorem claim2_malformed_tool_arguments :
    (∀ (jsonParse : String → Option Json) (resp : OllamaChatResponse)
       (tc : OllamaToolCall) (s : String),
        tc ∈ resp.message.tool_calls.getD [] →
        tc.function.arguments = .str s →
        jsonParse s = none →
        generateContentChatResult jsonParse resp =
          .error "Failed to generate content with Ollama") ∧
    (∀ (parseLine : List Char → Option OllamaChatResponse)
       (jsonParse : String → Option Json)
       (before after : List (List Char)) (bad : List Char)
       (chunk : OllamaChatResponse),
        isBlankLine bad = false →
        parseLine bad = some chunk →
        convertChatResponseToGemini jsonParse chunk = none →
        doGenerateContentStreamChatLines parseLine jsonParse
            (before ++ bad :: after) =
          doGenerateContentStreamChatLines parseLine jsonParse before ++
            doGenerateContentStreamChatLines parseLine jsonParse after) := by
  constructor
  · intro jsonParse resp tc s hmem hs hparse
    unfold generateContentChatResult convertChatResponseToGemini
    rw [convertToolCalls_eq_none jsonParse _ tc s hmem hs hparse]
  · intro parseLine jsonParse before after bad chunk hblank hparse hconv
    unfold doGenerateContentStreamChatLines
    rw [List.filterMap_append, List.filterMap_cons]
    simp [hblank, hparse, hconv]

/-- Witness for the amended claim C2 at the concrete malformed record: the
non-streaming chat operation fails hard, and in a stream the record is
skipped between well-formed neighbours. -/
theorem claim2_malformed_tool_arguments_witness :
    generateContentChatResult (fun _ => none) badChatChunk =
      .error "Failed to generate content with Ollama" ∧
    doGenerateContentStreamChatLines chatParseLineStub (fun _ => none)
        ([['g']] ++ ['b'] :: [['g']]) =
      doGenerateContentStreamChatLines chatParseLineStub (fun _ => none)
        [['g']] ++
        doGenerateContentStreamChatLines chatParseLineStub (fun _ => none)
          [['g']] :=
  ⟨claim2_malformed_tool_arguments.1 (fun _ => none) badChatChunk badToolCall
      "notjson" (List.mem_cons_self _ _) rfl rfl,
   claim2_malformed_tool_arguments.2 chatParseLineStub (fun _ => none)
      [['g']] [['g']] ['b'] badChatChunk rfl rfl rfl⟩

/-- Claim C7 counterexample: for the available set `[""]` neither the
default model nor any recommended model is available and the set is
non-empty, yet the function does not return the set's first model `""`:
the JavaScript `||` fallback yields the default identifier instead. -/
theorem claim7_counterexample :
    [""].contains DEFAULT_OLLAMA_MODEL = false ∧
    RECOMMENDED_OLLAMA_MODELS.all (fun r => !([""].contains r)) = true ∧
    getBestAvailableModel [""] = DEFAULT_OLLAMA_MODEL ∧
    getBestAvailableModel [""] ≠ "" :=
  ⟨rfl, by decide, rfl, by decide⟩

/-- Claim C7 (amended): the model resolution never returns an empty
identifier; it returns the default model when available, else the first
available recommended model in recommended order, else the first model of
the set when that is non-empty (an empty-string first entry falls back to
the default), else the default model identifier. -/
theorem claim7_best_model_resolution :
    (∀ availableModels : List String,
        getBestAvailableModel availableModels ≠ "") ∧
    (∀ availableModels : List String,
        availableModels.contains DEFAULT_OLLAMA_MODEL = true →
        getBestAvailableModel availableModels = DEFAULT_OLLAMA_MODEL) ∧
    (∀ (availableModels : List String) (m : String),
        availableModels.contains DEFAULT_OLLAMA_MODEL = false →
        RECOMMENDED_OLLAMA_MODELS.find?
            (fun r => availableModels.contains r) = some m →
        getBestAvailableModel availableModels = m) ∧
    (∀ (first : String) (rest : List String),
        (first :: rest).contains DEFAULT_OLLAMA_MODEL = false →
        RECOMMENDED_OLLAMA_MODELS.find?
            (fun r => (first :: rest).contains r) = none →
        getBestAvailableModel (first :: rest) =
          if first = "" then DEFAULT_OLLAMA_MODEL else first) ∧
    getBestAvailableModel [] = DEFAULT_OLLAMA_MODEL := by
  refine ⟨?_, ?_, ?_, ?_, rfl⟩
  · intro avail
    unfold getBestAvailableModel
    by_cases h : avail.contains DEFAULT_OLLAMA_MODEL = true
    · simp only [h, if_true]
      decide
    · have h' : avail.contains DEFAULT_OLLAMA_MODEL = false := by
        cases hb : avail.contains DEFAULT_OLLAMA_MODEL
        · rfl
        · exact absurd hb h
      simp only [h', Bool.false_eq_true, if_false]
      cases hf : RECOMMENDED_OLLAMA_MODELS.find? (fun r => avail.contains r) with
      | some m =>
        have hmem := List.mem_of_find?_eq_some hf
        have hne : ∀ x ∈ RECOMMENDED_OLLAMA_MODELS, x ≠ "" := by decide
        exact hne m hmem
      | none =>
        cases avail with
        | nil => decide
        | cons first rest =>
          by_cases hfe : first = ""
          · simp only [hfe, if_true]
            decide
          · simp only [hfe, if_false]
            exact hfe
  · intro avail h
    unfold getBestAvailableModel
    rw [if_pos h]
  · intro avail m h hf
    unfold getBestAvailableModel
    rw [if_neg
        (show ¬avail.contains DEFAULT_OLLAMA_MODEL = true by
          rw [h]; exact Bool.false_ne_true),
      hf]
  · intro first rest h hf
    unfold getBestAvailableModel
    rw [if_neg
        (show ¬(first :: rest).contains DEFAULT_OLLAMA_MODEL = true by
          rw [h]; exact Bool.false_ne_true),
      hf]

/-- Witness for the amended claim C7: the default wins whenever available
(even listed after another recommended model), a recommended model wins in
recommended order otherwise, and the empty set falls back to the default. -/
theorem claim7_best_model_resolution_witness :
    getBestAvailableModel ["mistral:7b", "qwen3:1.7b"] = DEFAULT_OLLAMA_MODEL ∧
    getBestAvailableModel ["zzz", "gemma2:2b"] = "gemma2:2b" ∧
    getBestAvailableModel [""] ≠ "" :=
  ⟨claim7_best_model_resolution.2.1 ["mistral:7b", "qwen3:1.7b"] (by decide),
   claim7_best_model_resolution.2.2.1 ["zzz", "gemma2:2b"] "gemma2:2b"
     (by decide) (by decide),
   claim7_best_model_resolution.1 [""]⟩

/-- A function-response part whose payload is a map whose `output` field is
the (falsy) empty string. -/
def outputFalsyPart : Part :=
  { functionResponse :=
      some { name := some "f"
             response := some (Json.obj [("output", Json.str "")]) } }

/-- Claim C8 counterexample: on a payload map containing a falsy `output`
field the claimed selection returns the nested `output`, but the code's
JavaScript `||` chain skips the falsy field and returns the whole payload
instead. -/
theorem claim8_counterexample :
    extractFunctionResponses [outputFalsyPart] =
      [("f", Json.obj [("output", Json.str "")])] ∧
    claimedExtractFunctionResponses [outputFalsyPart] =
      [("f", Json.str "")] ∧
    extractFunctionResponses [outputFalsyPart] ≠
      claimedExtractFunctionResponses [outputFalsyPart] := by
  refine ⟨rfl, rfl, ?_⟩
  intro h
  rw [show extractFunctionResponses [outputFalsyPart] =
        [("f", Json.obj [("output", Json.str "")])] from rfl,
      show claimedExtractFunctionResponses [outputFalsyPart] =
        [("f", Json.str "")] from rfl] at h
  injection h with h1 _
  injection h1 with _ h2
  exact Json.noConfusion h2

/-- Claim C8 (amended): `extractFunctionResponses` returns exactly the
function-response parts, in order, each as a name/value pair whose value is
the nested `output` field whenever the payload is a map containing a truthy
`output` field, else the whole payload when that is truthy, else the empty
map. -/
theorem claim8_function_response_extraction (parts : List Part) :
    extractFunctionResponses parts = amendedExtractFunctionResponses parts := by
  unfold extractFunctionResponses amendedExtractFunctionResponses
  refine List.map_congr_left ?_
  intro p hp
  simp only [amendedFunctionResponseValue_eq]

end Ollama
